import Mathlib

/-!
Verification of the result-aggregation and multi-sample orchestration layer of
liana-py, as implemented in `liana/plotting/_dotplot.py` and
`liana/method/_Method.py`.

Modelling conventions:
* a result DataFrame is a `List Row`; statistic columns are an association list
  from column name to a rational value (pandas floats are modelled as `ℚ` so that
  every operation stays executable and decidable);
* pandas and numpy sorts (`groupby(sort=True)`, `sort_values`, `np.unique`) are
  modelled by the deterministic stable `List.insertionSort`;
* raising an exception is modelled by `Except`: a Python statement that merely
  constructs an exception object without `raise` is modelled by a discarded
  pure value, exactly as the interpreter treats it;
* the in-place mutation of an `AnnData` object is modelled by explicit state
  passing: a call returns the new object state next to its return value.
-/

/-- One row of a liana result table: the four identifying columns
(`source`, `target`, `ligand_complex`, `receptor_complex`) plus the statistic
columns (magnitude, specificity, supplementary), kept as an association list
from column name to value. -/
structure Row where
  source : String
  target : String
  ligand_complex : String
  receptor_complex : String
  stats : List (String × ℚ)
deriving DecidableEq, Repr

/-- Column access `r[c]` for a statistic column. -/
def Row.col (r : Row) (c : String) : ℚ :=
  (r.stats.lookup c).getD 0

/-- The interaction display label, from `_dotplot.py` line 263:
`liana_res['interaction'] = liana_res['ligand_complex'] + ' -> ' + liana_res['receptor_complex']`. -/
def Row.interaction (r : Row) : String :=
  r.ligand_complex ++ " -> " ++ r.receptor_complex

/-- Which label column `_filter_labels` works on (its `label_type` argument). -/
inductive LabelType where
  | source
  | target
deriving DecidableEq, Repr

/-- The value of the selected label column of a row. -/
def Row.labelOf (r : Row) (label_type : LabelType) : String :=
  match label_type with
  | .source => r.source
  | .target => r.target

/-- Errors that `dotplot` can raise, distinguished by Python exception class. -/
inductive DotplotErr where
  | valueError (msg : String)
  | labelsNotFound (missing : List String) (label_type : LabelType)
  | keyError (msg : String)
deriving DecidableEq, Repr

/-- From `_dotplot.py` lines 276-287 (`_filter_labels`): if an allow-list is given,
check with `np.isin(labels, liana_res[label_type])` that every requested label occurs
in the column; if some do not, raise a ValueError naming exactly the absent ones
(`np.array(labels)[~covered]`, in requested order); otherwise keep exactly the rows
whose label is in the list (`np.isin(liana_res[label_type], labels)`).
The `if labels is str` branch of the source compares against the type object and is
never taken, so it is not modelled. -/
def _filter_labels (liana_res : List Row) (labels : Option (List String))
    (label_type : LabelType) : Except (List String) (List Row) :=
  match labels with
  | none => .ok liana_res
  | some ls =>
      if ls.all (fun l => decide (l ∈ liana_res.map (fun r => r.labelOf label_type))) then
        .ok (liana_res.filter (fun r => decide (r.labelOf label_type ∈ ls)))
      else
        .error (ls.filter (fun l => decide (l ∉ liana_res.map (fun r => r.labelOf label_type))))

/-- From `_dotplot.py` lines 238-265 (`_prep_liana_res`): validate `colour` and `size`,
then apply the two label filters. The interaction column added on line 263 is modelled
by the derived function `Row.interaction`. -/
def _prep_liana_res (liana_res : List Row) (source_labels target_labels : Option (List String))
    (colour size : Option String) : Except DotplotErr (List Row) := do
  if colour = none then throw (.valueError "`colour` must be provided!")
  if size = none then throw (.valueError "`size` must be provided!")
  let t1 ← match _filter_labels liana_res source_labels .source with
    | .ok t => pure t
    | .error m => throw (.labelsNotFound m .source)
  match _filter_labels t1 target_labels .target with
    | .ok t => pure t
    | .error m => throw (.labelsNotFound m .target)

/-- Lexicographic comparison of strings by Unicode code point, written structurally
so that sorts evaluate inside the kernel; this is the order numpy and pandas use for
string columns. -/
def charListLe : List Char → List Char → Bool
  | [], _ => true
  | _ :: _, [] => false
  | a :: as, b :: bs =>
      if a.val < b.val then true
      else if b.val < a.val then false
      else charListLe as bs

/-- String order as a decidable relation for the list sorts below. -/
def strRel (a b : String) : Prop := charListLe a.data b.data = true

instance : DecidableRel strRel :=
  fun a b => instDecidableEqBool (charListLe a.data b.data) true

/-- From `_dotplot.py` lines 78-81 (the `filterby` branch of `dotplot`):
`np.unique` of the interaction labels of the rows satisfying the predicate
(sorted distinct values), then keep every row whose interaction is in that set. -/
def _filter_by_predicate (liana_res : List Row) (filterby : String)
    (filter_lambda : ℚ → Bool) : List Row :=
  let relevant :=
    List.insertionSort strRel
      (((liana_res.filter (fun r => filter_lambda (r.col filterby))).map Row.interaction).dedup)
  liana_res.filter (fun r => decide (r.interaction ∈ relevant))

/-- The aggregation rule passed to `pandas.agg`: `'min'` or `'max'`. -/
inductive AggHow where
  | min
  | max
deriving DecidableEq, Repr

/-- Aggregate a column of values by `min` or `max`. Every pandas group is nonempty,
so the `[]` case is unreachable. -/
def aggHow (how : AggHow) : List ℚ → ℚ
  | [] => 0
  | x :: xs => xs.foldl (fun a b => match how with | .min => min a b | .max => max a b) x

/-- The `groupby` key used by `dotplot`: the `entities` list
`['interaction', 'ligand_complex', 'receptor_complex']`. -/
def Row.aggKey (r : Row) : String × String × String :=
  (r.interaction, r.ligand_complex, r.receptor_complex)

/-- Lexicographic order on the groupby key (pandas `groupby(sort=True)` returns the
groups in sorted key order). -/
def tripleLeB (a b : String × String × String) : Bool :=
  if a.1 == b.1 then
    (if a.2.1 == b.2.1 then charListLe a.2.2.data b.2.2.data
     else charListLe a.2.1.data b.2.1.data)
  else charListLe a.1.data b.1.data

/-- The groupby-key order as a decidable relation. -/
def tripleRel (a b : String × String × String) : Prop := tripleLeB a b = true

instance : DecidableRel tripleRel :=
  fun a b => instDecidableEqBool (tripleLeB a b) true

/-- From `_dotplot.py` lines 268-269 (`_aggregate_scores`):
`res.groupby(entities).agg(score=(what, how)).reset_index()` — one output row per
distinct key, in sorted key order, holding the `min`/`max` of column `what` over
the rows of that group. -/
def _aggregate_scores (res : List Row) (what : String) (how : AggHow) :
    List ((String × String × String) × ℚ) :=
  (List.insertionSort tripleRel ((res.map Row.aggKey).dedup)).map
    (fun k => (k, aggHow how ((res.filter (fun r => decide (r.aggKey = k))).map
      (fun r => r.col what))))

/-- The order used by `sort_values('score', ascending=orderby_ascending)`. -/
def scoreRel (asc : Bool) (p q : (String × String × String) × ℚ) : Prop :=
  if asc then p.2 ≤ q.2 else q.2 ≤ p.2

instance : DecidableRel (scoreRel asc) := fun p q => by
  unfold scoreRel
  split <;> infer_instance

/-- The aggregated score table of `dotplot`, sorted by score
(`_aggregate_scores(...).sort_values('score', ascending=orderby_ascending)`,
with `how = 'min'` when ascending and `'max'` otherwise, lines 89-93). -/
def sortedAgg (liana_res : List Row) (orderby : String) (orderby_ascending : Bool) :
    List ((String × String × String) × ℚ) :=
  List.insertionSort (scoreRel orderby_ascending)
    (_aggregate_scores liana_res orderby (if orderby_ascending then AggHow.min else AggHow.max))

/-- `top_lrs` of `_dotplot.py` line 98: `.head(top_n).interaction` of the sorted
aggregated table. -/
def topLrs (liana_res : List Row) (top_n : ℕ) (orderby : String)
    (orderby_ascending : Bool) : List String :=
  ((sortedAgg liana_res orderby orderby_ascending).take top_n).map (fun p => p.1.1)

/-- Line 100: `liana_res[liana_res.interaction.isin(top_lrs)]`. -/
def topNSelect (liana_res : List Row) (top_n : ℕ) (orderby : String)
    (orderby_ascending : Bool) : List Row :=
  liana_res.filter
    (fun r => decide (r.interaction ∈ topLrs liana_res top_n orderby orderby_ascending))

/-- From `_dotplot.py` lines 83-100 (the `top_n` branch of `dotplot`).
Lines 85-88 construct two `ValueError` objects without `raise`, so they are modelled
as discarded pure values and execution falls through to the aggregation; with
`orderby=None` the named aggregation `agg(score=(None, how))` then raises a pandas
`KeyError`, and with `orderby` set but `orderby_ascending=None` the
`sort_values(ascending=None)` validation raises only after the aggregation ran. -/
def dotplotTopNStage (liana_res : List Row) (top_n : Option ℕ) (orderby : Option String)
    (orderby_ascending : Option Bool) : Except DotplotErr (List Row) :=
  match top_n with
  | none => .ok liana_res
  | some n =>
      let _unraised1 : Option DotplotErr :=
        if orderby = none then
          some (.valueError "Please specify the column to order the interactions.")
        else none
      let _unraised2 : Option DotplotErr :=
        if orderby_ascending = none then
          some (.valueError "Please specify if `orderby` is ascending or not.")
        else none
      match orderby with
      | none => .error (.keyError "Column(s) [None] do not exist")
      | some ob =>
          match orderby_ascending with
          | none => .error (.valueError "For argument ascending expected type bool, received type NoneType.")
          | some asc => .ok (topNSelect liana_res n ob asc)

/-- The data pipeline of `dotplot` (`_dotplot.py` lines 71-106): preparation
(argument validation, label filtering, interaction labelling), predicate filtering,
then top-N selection. The `-log10` rescaling of the colour/size columns and the
ggplot figure assembly that follow are rendering concerns; the rescaling primitive
itself is modelled separately over `ℝ` as `_inverse_scores`. -/
def dotplot (liana_res : List Row) (colour size : Option String)
    (source_labels target_labels : Option (List String))
    (top_n : Option ℕ) (orderby : Option String) (orderby_ascending : Option Bool)
    (filterby : Option String) (filter_lambda : ℚ → Bool) :
    Except DotplotErr (List Row) := do
  let t ← _prep_liana_res liana_res source_labels target_labels colour size
  let t2 := match filterby with
    | none => t
    | some c => _filter_by_predicate t c filter_lambda
  dotplotTopNStage t2 top_n orderby orderby_ascending

/-- Elementwise `-log10(value + machine_epsilon)` rescaling, from `_dotplot.py`
lines 272-273 (`_inverse_scores`). `machEps` is `np.finfo(float).eps = 2⁻⁵²`. -/
noncomputable def machEps : ℝ := 1 / 2 ^ 52

/-- The scalar inverse transform applied to one value. -/
noncomputable def invScore (x : ℝ) : ℝ := -Real.logb 10 (x + machEps)

/-- `_inverse_scores` applied to a whole column. -/
noncomputable def _inverse_scores (score : List ℝ) : List ℝ := score.map invScore

/-- Method metadata, from `_Method.py` lines 12-66 (`MethodMeta.__init__`): the
constructor stores its arguments unchanged. The scoring-function handle (`fun` in
the source, a Lean keyword) is the field `fn` of an abstract type `F`. -/
structure MethodMeta (F : Type) where
  method_name : String
  complex_cols : List String
  add_cols : List String
  fn : F
  magnitude : Option String
  magnitude_ascending : Option Bool
  specificity : Option String
  specificity_ascending : Option Bool
  permute : Bool
  reference : String
deriving DecidableEq, Repr

/-- One row of the registry table built by `get_meta` (`_Method.py` lines 80-87);
field names stand for the DataFrame columns "Method Name", "Magnitude Score",
"Specificity Score" and "Reference". -/
structure MetaRow where
  methodName : String
  magnitudeScore : Option String
  specificityScore : Option String
  reference : String
deriving DecidableEq, Repr

/-- `MethodMeta.get_meta`: a single-row DataFrame with the four descriptor fields. -/
def MethodMeta.get_meta {F : Type} (m : MethodMeta F) : List MetaRow :=
  [{ methodName := m.method_name, magnitudeScore := m.magnitude,
     specificityScore := m.specificity, reference := m.reference }]

/-- The registry row of a method, spelled out field by field: the four descriptor
values exactly as stored by the constructor. -/
def MethodMeta.metaRow {F : Type} (m : MethodMeta F) : MetaRow :=
  { methodName := m.method_name, magnitudeScore := m.magnitude,
    specificityScore := m.specificity, reference := m.reference }

/-- `_show_methods` (`_Method.py` lines 269-270): `concat` of the `get_meta` rows of
the given methods, in list order. -/
def _show_methods {F : Type} (methods : List (MethodMeta F)) : List MetaRow :=
  (methods.map MethodMeta.get_meta).flatten

/-- The `adata.uns['liana_res']` slot: absent, the per-sample dictionary built by
`by_sample`, or a combined DataFrame (rows tagged with their sample value). -/
inductive LianaSlot (Row : Type) where
  | absent
  | dict (d : List (String × List Row))
  | table (t : List (String × Row))
deriving DecidableEq, Repr

/-- The part of an `AnnData` object that `by_sample` touches. `obs` pairs each cell
(of abstract payload type `Cell`) with the value of the sample-key column for that
cell; `obsKeys` is the set of column names of `adata.obs`; `sampleCategorical` and
`categories` model the dtype of the sample-key column and its category levels. -/
structure AnnData (Cell Row : Type) where
  obsKeys : List String
  obs : List (Cell × String)
  sampleCategorical : Bool
  categories : List String
  uns : LianaSlot Row
deriving DecidableEq, Repr

/-- Category levels produced by `.astype('category')` on a plain column: the sorted
distinct values present. -/
def coercedCategories {Cell R : Type} (adata : AnnData Cell R) : List String :=
  List.insertionSort strRel ((adata.obs.map Prod.snd).dedup)

/-- The category levels `by_sample` iterates over: the declared levels when the
column is already categorical, else the levels created by the in-place coercion. -/
def effCategories {Cell R : Type} (adata : AnnData Cell R) : List String :=
  if adata.sampleCategorical then adata.categories else coercedCategories adata

/-- The state of the object after the dtype check on `_Method.py` lines 120-122:
a non-categorical sample column is coerced in place. -/
def effectiveAdata {Cell R : Type} (adata : AnnData Cell R) : AnnData Cell R :=
  if adata.sampleCategorical then adata
  else { adata with sampleCategorical := true, categories := coercedCategories adata }

/-- `MethodMeta.by_sample` (`_Method.py` lines 89-150). `pipe` stands for
`self.__call__(temp, inplace=False, verbose=full_verbose, **kwargs)` — the method run
on a cell subset with all other parameters fixed (lines 242-264: with `inplace=False`
this is exactly `liana_pipe` on that subset, with no write to `temp.uns`).

Behaviour modelled statement by statement:
* line 117: missing sample key raises a ValueError;
* lines 120-122: a non-categorical column is coerced in place; the message f-string
  on line 121 is a bare expression, evaluated and discarded, so the list of warnings
  emitted by the call is `[]`;
* lines 130-143: iterate over the category levels in order, slice
  `adata[adata.obs[sample_key] == sample].copy()`, run the method on the slice, and
  store each result in the dictionary `adata.uns['liana_res']` keyed by sample;
* lines 145-146: the combined table is the concatenation of the per-sample tables in
  dictionary (= category) order, the per-sample row index dropped, the index reset,
  and the sample identifier exposed as a column named after `sample_key` (here: the
  first component of each row pair);
* lines 148-150: with `inplace=True` the slot is overwritten by the combined table
  and `None` is returned; otherwise the slot keeps the dictionary and the combined
  table is returned.
The returned triple is (warnings emitted, final object state, returned value). -/
def by_sample {Cell R : Type} (pipe : List (Cell × String) → List R)
    (adata : AnnData Cell R) (sample_key : String) (inplace : Bool) :
    Except String (List String × AnnData Cell R × Option (List (String × R))) :=
  if sample_key ∈ adata.obsKeys then
    let adata1 := effectiveAdata adata
    let warnings : List String := []
    let samples := adata1.categories
    let resDict := samples.map (fun s => (s, pipe (adata1.obs.filter (fun c => decide (c.2 = s)))))
    let combined := resDict.flatMap (fun p => p.2.map (fun r => (p.1, r)))
    let adata2 := if inplace then { adata1 with uns := LianaSlot.table combined }
                  else { adata1 with uns := LianaSlot.dict resDict }
    .ok (warnings, adata2, if inplace then none else some combined)
  else
    .error (sample_key ++ " was not found in `adata.obs`.")

/-- Modelled from the spec, for the refinement claim about `by_sample`: the final
table is the concatenation, in category-level order, of the tables obtained by
calling the method directly on each single-sample cell subset, each row tagged with
the sample identifier. -/
def specBySampleCombined {Cell R : Type} (pipe : List (Cell × String) → List R)
    (adata : AnnData Cell R) : List (String × R) :=
  adata.categories.flatMap
    (fun s => (pipe (adata.obs.filter (fun c => decide (c.2 = s)))).map (fun r => (s, r)))

/-- C9: `get_meta` returns a table with exactly one row holding the four descriptor
fields (name, magnitude column, specificity column, reference) exactly as stored at
construction, and `_show_methods` equals the row-wise concatenation of each
registered method's `get_meta` row, in list order. -/
theorem C9_get_meta_registry {F : Type} (m : MethodMeta F) (ms : List (MethodMeta F)) :
    m.get_meta = [m.metaRow] ∧
    m.get_meta.length = 1 ∧
    (m.metaRow.methodName = m.method_name ∧ m.metaRow.magnitudeScore = m.magnitude ∧
      m.metaRow.specificityScore = m.specificity ∧ m.metaRow.reference = m.reference) ∧
    _show_methods ms = ms.map MethodMeta.metaRow := by
  refine ⟨rfl, rfl, ⟨rfl, rfl, rfl, rfl⟩, ?_⟩
  induction ms with
  | nil => rfl
  | cons a l ih => simpa [_show_methods, MethodMeta.get_meta, MethodMeta.metaRow] using ih

/-- C7: predicate filtering keeps exactly the rows whose interaction label has at
least one row in the table satisfying the predicate on the `filterby` column — a row
is kept even when it does not itself satisfy the predicate, and every row of an
interaction with no satisfying row is removed. -/
theorem C7_predicate_filtering (t : List Row) (c : String) (p : ℚ → Bool) (r : Row) :
    r ∈ _filter_by_predicate t c p ↔
      r ∈ t ∧ ∃ s ∈ t, p (s.col c) = true ∧ s.interaction = r.interaction := by
  simp only [_filter_by_predicate, List.mem_filter, decide_eq_true_eq,
    List.mem_insertionSort, List.mem_dedup, List.mem_map]
  constructor
  · rintro ⟨hr, s, ⟨hs, hps⟩, hi⟩
    exact ⟨hr, s, hs, hps, hi⟩
  · rintro ⟨hr, s, hs, hps, hi⟩
    exact ⟨hr, s, ⟨hs, hps⟩, hi⟩

/-- A one-row table used to exercise `dotplot` at the failing input of the unraised
configuration error. -/
def rowC2 : Row :=
  { source := "B", target := "T", ligand_complex := "L", receptor_complex := "R",
    stats := [("lr_means", 1), ("pvals", 1/2)] }

/-- C2 (code bug): calling `dotplot` with `top_n` set and `orderby=None` does not
raise the configuration ValueError — `_dotplot.py` lines 85-88 construct the
exception object and discard it without `raise` — so execution proceeds into the
aggregation step, which is reached and fails there with a pandas KeyError instead. -/
theorem C2_config_error_not_raised :
    dotplot [rowC2] (some "pvals") (some "lr_means") none none (some 5) none none
      none (fun _ => true) = .error (.keyError "Column(s) [None] do not exist") := by
  rfl

/-- A three-cell object whose sample column is not categorical, for the coercion
path of `by_sample`. -/
def adataC3 : AnnData ℕ ℕ :=
  { obsKeys := ["sample"], obs := [(0, "s2"), (1, "s1"), (2, "s2")],
    sampleCategorical := false, categories := [], uns := LianaSlot.absent }

/-- C3 (code bug): on a sample column that exists but is not categorical, the run
does not fail, the column is coerced to categorical in place (levels = the sorted
distinct values) and iteration proceeds over the category levels in order — but the
list of warnings emitted is empty: `_Method.py` line 121 evaluates the message
f-string as a bare expression and discards it, so no warning reaches the caller. -/
theorem C3_coercion_without_warning :
    by_sample (fun obs => obs.map Prod.fst) adataC3 "sample" false =
      .ok ([],
        { obsKeys := ["sample"], obs := [(0, "s2"), (1, "s1"), (2, "s2")],
          sampleCategorical := true, categories := ["s1", "s2"],
          uns := LianaSlot.dict [("s1", [1]), ("s2", [0, 2])] },
        some [("s1", 1), ("s2", 0), ("s2", 2)]) := by
  rfl

/-- C5: label-set filtering with an explicit allow-list: when every requested name
occurs in the selected column, the result keeps exactly the rows whose label is in
the list; otherwise it raises an error naming exactly the requested names absent
from the table (never silently dropping a requested name). -/
theorem C5_label_filtering (t : List Row) (ls : List String) (lt : LabelType) :
    ((∀ l ∈ ls, ∃ r ∈ t, r.labelOf lt = l) →
      _filter_labels t (some ls) lt =
        .ok (t.filter (fun r => decide (r.labelOf lt ∈ ls)))) ∧
    ((∃ l ∈ ls, ∀ r ∈ t, r.labelOf lt ≠ l) →
      ∃ m, _filter_labels t (some ls) lt = .error m) ∧
    (∀ res, _filter_labels t (some ls) lt = .ok res →
      ∀ r, r ∈ res ↔ r ∈ t ∧ r.labelOf lt ∈ ls) ∧
    (∀ m, _filter_labels t (some ls) lt = .error m →
      ∀ l, l ∈ m ↔ l ∈ ls ∧ ∀ r ∈ t, r.labelOf lt ≠ l) := by
  have hmem : ∀ l : String, (l ∈ t.map (fun r => r.labelOf lt)) ↔ ∃ r ∈ t, r.labelOf lt = l := by
    intro l
    simp [List.mem_map]
  by_cases hall : (ls.all (fun l => decide (l ∈ t.map (fun r => r.labelOf lt)))) = true
  · have key : _filter_labels t (some ls) lt =
        .ok (t.filter (fun r => decide (r.labelOf lt ∈ ls))) := by
      simp only [_filter_labels]
      rw [if_pos hall]
    refine ⟨fun _ => key, ?_, ?_, ?_⟩
    · rintro ⟨l, hl, habs⟩
      exfalso
      rw [List.all_eq_true] at hall
      have hc := hall l hl
      rw [decide_eq_true_eq, hmem] at hc
      obtain ⟨r, hr, hrl⟩ := hc
      exact habs r hr hrl
    · intro res hres r
      rw [key] at hres
      injection hres with h
      subst h
      simp [List.mem_filter]
    · intro m hm
      rw [key] at hm
      exact absurd hm (by simp)
  · have key : _filter_labels t (some ls) lt =
        .error (ls.filter (fun l => decide (l ∉ t.map (fun r => r.labelOf lt)))) := by
      simp only [_filter_labels]
      rw [if_neg hall]
    refine ⟨?_, fun _ => ⟨_, key⟩, ?_, ?_⟩
    · intro hcov
      exfalso
      apply hall
      rw [List.all_eq_true]
      intro l hl
      rw [decide_eq_true_eq, hmem]
      exact hcov l hl
    · intro res hres
      rw [key] at hres
      exact absurd hres (by simp)
    · intro m hm l
      rw [key] at hm
      injection hm with h
      subst h
      simp only [List.mem_filter, decide_eq_true_eq, hmem]
      constructor
      · rintro ⟨hl, habs⟩
        exact ⟨hl, fun r hr hrl => habs ⟨r, hr, hrl⟩⟩
      · rintro ⟨hl, habs⟩
        refine ⟨hl, ?_⟩
        rintro ⟨r, hr, hrl⟩
        exact habs r hr hrl

/-- C4: top-N selection is monotone in N — both the selected interaction list and
the retained row set for `top_n = K` are contained in those for `top_n = K' ≥ K`. -/
theorem C4_topn_monotone (t : List Row) (ob : String) (asc : Bool) (K Kp : ℕ)
    (h : K ≤ Kp) :
    (∀ i ∈ topLrs t K ob asc, i ∈ topLrs t Kp ob asc) ∧
    (∀ r ∈ topNSelect t K ob asc, r ∈ topNSelect t Kp ob asc) := by
  have hsub : ∀ i ∈ topLrs t K ob asc, i ∈ topLrs t Kp ob asc := by
    intro i hi
    unfold topLrs at hi ⊢
    obtain ⟨p, hp, rfl⟩ := List.mem_map.mp hi
    refine List.mem_map.mpr ⟨p, ?_, rfl⟩
    have hKK : (sortedAgg t ob asc).take K = ((sortedAgg t ob asc).take Kp).take K := by
      rw [List.take_take, Nat.min_eq_left h]
    rw [hKK] at hp
    exact List.take_subset _ _ hp
  refine ⟨hsub, ?_⟩
  intro r hr
  unfold topNSelect at hr ⊢
  rw [List.mem_filter] at hr ⊢
  exact ⟨hr.1, decide_eq_true (hsub _ (of_decide_eq_true hr.2))⟩

/-- A small concrete result table (two interactions, two group pairs each) used to
instantiate the universally quantified theorems. -/
def sampleTable : List Row :=
  [{ source := "A", target := "B", ligand_complex := "L1", receptor_complex := "R1",
     stats := [("score", 5), ("pv", 1)] },
   { source := "A", target := "C", ligand_complex := "L1", receptor_complex := "R1",
     stats := [("score", 2), ("pv", 0)] },
   { source := "A", target := "B", ligand_complex := "L2", receptor_complex := "R2",
     stats := [("score", 3), ("pv", 1)] },
   { source := "A", target := "C", ligand_complex := "L2", receptor_complex := "R2",
     stats := [("score", 7), ("pv", 4)] }]

/-- Instantiation of the top-N monotonicity theorem at a concrete table and
`K = 1 ≤ 2 = K'`. -/
theorem C4_topn_monotone_witness :
    (1 : ℕ) ≤ 2 ∧
    (∀ i ∈ topLrs sampleTable 1 "score" true, i ∈ topLrs sampleTable 2 "score" true) ∧
    (∀ r ∈ topNSelect sampleTable 1 "score" true, r ∈ topNSelect sampleTable 2 "score" true) :=
  ⟨by decide,
   (C4_topn_monotone sampleTable "score" true 1 2 (by decide)).1,
   (C4_topn_monotone sampleTable "score" true 1 2 (by decide)).2⟩

/-- Instantiation of the label-filtering theorem: the single requested source label
occurs in the table, so filtering returns exactly the matching rows. -/
theorem C5_label_filtering_witness :
    _filter_labels sampleTable (some ["A"]) LabelType.source =
      .ok (sampleTable.filter (fun r => decide (r.labelOf LabelType.source ∈ ["A"]))) :=
  (C5_label_filtering sampleTable ["A"] LabelType.source).1 (by decide)

/-- The label of a row determines its ligand and receptor complexes within a table:
true of every real result table, where the label is built as
`ligand_complex ++ " -> " ++ receptor_complex`. -/
def LabelConsistent (t : List Row) : Prop :=
  ∀ r ∈ t, ∀ s ∈ t, r.interaction = s.interaction →
    r.ligand_complex = s.ligand_complex ∧ r.receptor_complex = s.receptor_complex

instance (t : List Row) : Decidable (LabelConsistent t) := by
  unfold LabelConsistent
  infer_instance

/-- Spec-side aggregated statistic of one interaction: the `min` (when ascending)
or `max` (when descending) of the statistic over all group-pair rows carrying that
interaction label. -/
def specAgg (t : List Row) (ob : String) (asc : Bool) (i : String) : ℚ :=
  aggHow (if asc then AggHow.min else AggHow.max)
    ((t.filter (fun r => decide (r.interaction = i))).map (fun r => r.col ob))

/-- Mapping an injective-on-the-list function commutes with `dedup`. -/
theorem map_dedup_of_injOn {α β : Type} [DecidableEq α] [DecidableEq β] (f : α → β) :
    ∀ l : List α, (∀ a ∈ l, ∀ b ∈ l, f a = f b → a = b) →
      l.dedup.map f = (l.map f).dedup := by
  intro l
  induction l with
  | nil => intro _; rfl
  | cons a l ih =>
      intro hinj
      have hinj2 : ∀ x ∈ l, ∀ y ∈ l, f x = f y → x = y :=
        fun x hx y hy => hinj x (List.mem_cons_of_mem _ hx) y (List.mem_cons_of_mem _ hy)
      by_cases ha : a ∈ l
      · rw [List.dedup_cons_of_mem ha, ih hinj2, List.map_cons,
          List.dedup_cons_of_mem (List.mem_map_of_mem f ha)]
      · have hfa : f a ∉ l.map f := by
          rw [List.mem_map]
          rintro ⟨b, hb, hfb⟩
          have hba : b = a :=
            hinj b (List.mem_cons_of_mem _ hb) a (List.mem_cons_self _ _) hfb
          exact ha (hba ▸ hb)
        rw [List.dedup_cons_of_not_mem ha, List.map_cons, ih hinj2, List.map_cons,
          List.dedup_cons_of_not_mem hfa]

/-- Within a label-consistent table, a row matches a realised groupby key exactly
when its interaction label matches the key's first component, so the group of a key
equals the group of its label. -/
theorem aggKey_filter_eq (t : List Row) (hcons : LabelConsistent t)
    (k : String × String × String) (hk : k ∈ t.map Row.aggKey) :
    t.filter (fun r => decide (r.aggKey = k)) =
      t.filter (fun r => decide (r.interaction = k.1)) := by
  obtain ⟨r0, hr0, hk0⟩ := List.mem_map.mp hk
  apply List.filter_congr
  intro r hr
  rw [decide_eq_decide]
  constructor
  · intro h
    rw [← h]
    rfl
  · intro h
    have hi0 : r.interaction = r0.interaction := by
      rw [h, ← hk0]
      rfl
    obtain ⟨hl, hrc⟩ := hcons r hr r0 hr0 hi0
    rw [← hk0]
    unfold Row.aggKey Row.interaction
    rw [hl, hrc]

/-- Shape of the entries of `_aggregate_scores`: each carries a key realised in the
table and the aggregated statistic of that key's group. -/
theorem mem_aggregate_scores (t : List Row) (ob : String) (how : AggHow)
    (p : (String × String × String) × ℚ) (hp : p ∈ _aggregate_scores t ob how) :
    p.1 ∈ t.map Row.aggKey ∧
      p.2 = aggHow how ((t.filter (fun r => decide (r.aggKey = p.1))).map
        (fun r => r.col ob)) := by
  unfold _aggregate_scores at hp
  obtain ⟨k, hk, rfl⟩ := List.mem_map.mp hp
  exact ⟨List.mem_dedup.mp ((List.mem_insertionSort _).mp hk), rfl⟩

/-- C6: top-N selection aggregates the statistic per unique interaction with `min`
when ascending and `max` when descending (the value of `specAgg`), ranks the
interactions by that aggregated value in the flag's direction, and keeps exactly
the group-pair rows of the interactions ranked among the first N. -/
theorem C6_topn_aggregation (t : List Row) (n : ℕ) (ob : String) (asc : Bool)
    (hcons : LabelConsistent t) :
    ∃ ranking : List String,
      ranking.Perm ((t.map Row.interaction).dedup) ∧
      ranking.Pairwise (fun a b =>
        if asc then specAgg t ob asc a ≤ specAgg t ob asc b
        else specAgg t ob asc b ≤ specAgg t ob asc a) ∧
      topLrs t n ob asc = ranking.take n ∧
      topNSelect t n ob asc =
        t.filter (fun r => decide (r.interaction ∈ ranking.take n)) ∧
      dotplotTopNStage t (some n) (some ob) (some asc) =
        .ok (topNSelect t n ob asc) := by
  refine ⟨(sortedAgg t ob asc).map (fun p => p.1.1), ?_, ?_, ?_, ?_, rfl⟩
  · have hinj : ∀ a ∈ t.map Row.aggKey, ∀ b ∈ t.map Row.aggKey, a.1 = b.1 → a = b := by
      intro a ha b hb hab
      obtain ⟨ra, hra, rfl⟩ := List.mem_map.mp ha
      obtain ⟨rb, hrb, rfl⟩ := List.mem_map.mp hb
      have hi : ra.interaction = rb.interaction := hab
      obtain ⟨hl, hrc⟩ := hcons ra hra rb hrb hi
      unfold Row.aggKey Row.interaction
      rw [hl, hrc]
    have h1 := (List.perm_insertionSort (scoreRel asc)
      (_aggregate_scores t ob (if asc then AggHow.min else AggHow.max))).map
      (fun p : (String × String × String) × ℚ => p.1.1)
    have h2 : (_aggregate_scores t ob (if asc then AggHow.min else AggHow.max)).map
        (fun p : (String × String × String) × ℚ => p.1.1) =
        (List.insertionSort tripleRel ((t.map Row.aggKey).dedup)).map Prod.fst := by
      unfold _aggregate_scores
      rw [List.map_map]
      rfl
    have h3 := (List.perm_insertionSort tripleRel ((t.map Row.aggKey).dedup)).map
      (Prod.fst (β := String × String))
    have h4 : ((t.map Row.aggKey).dedup).map Prod.fst = (t.map Row.interaction).dedup := by
      rw [map_dedup_of_injOn Prod.fst _ hinj, List.map_map]
      rfl
    rw [h2] at h1
    rw [h4] at h3
    exact h1.trans h3
  · haveI : IsTotal ((String × String × String) × ℚ) (scoreRel asc) := ⟨by
      intro a b
      unfold scoreRel
      cases asc
      · simp only [Bool.false_eq_true, if_false]
        exact le_total _ _
      · simp only [if_true]
        exact le_total _ _⟩
    haveI : IsTrans ((String × String × String) × ℚ) (scoreRel asc) := ⟨by
      intro a b c
      unfold scoreRel
      cases asc
      · simp only [Bool.false_eq_true, if_false]
        exact fun h1 h2 => le_trans h2 h1
      · simp only [if_true]
        exact fun h1 h2 => le_trans h1 h2⟩
    have hsorted : (sortedAgg t ob asc).Pairwise (scoreRel asc) :=
      List.sorted_insertionSort (scoreRel asc)
        (_aggregate_scores t ob (if asc then AggHow.min else AggHow.max))
    have hscore : ∀ p ∈ sortedAgg t ob asc, p.2 = specAgg t ob asc p.1.1 := by
      intro p hp
      unfold sortedAgg at hp
      obtain ⟨hk, hval⟩ := mem_aggregate_scores t ob _ p ((List.mem_insertionSort _).mp hp)
      rw [hval, aggKey_filter_eq t hcons p.1 hk]
      rfl
    rw [List.pairwise_map]
    refine List.Pairwise.imp_of_mem ?_ hsorted
    intro a b ha hb hab
    rw [← hscore a ha, ← hscore b hb]
    exact hab
  · unfold topLrs
    exact List.map_take _ _ _
  · unfold topNSelect topLrs
    rw [List.map_take]

/-- Instantiation of the top-N aggregation theorem at a concrete label-consistent
table with `top_n = 1`, ascending. -/
theorem C6_topn_aggregation_witness :
    LabelConsistent sampleTable ∧
    ∃ ranking : List String,
      ranking.Perm ((sampleTable.map Row.interaction).dedup) ∧
      ranking.Pairwise (fun a b =>
        if true then specAgg sampleTable "score" true a ≤ specAgg sampleTable "score" true b
        else specAgg sampleTable "score" true b ≤ specAgg sampleTable "score" true a) ∧
      topLrs sampleTable 1 "score" true = ranking.take 1 ∧
      topNSelect sampleTable 1 "score" true =
        sampleTable.filter (fun r => decide (r.interaction ∈ ranking.take 1)) ∧
      dotplotTopNStage sampleTable (some 1) (some "score") (some true) =
        .ok (topNSelect sampleTable 1 "score" true) :=
  ⟨by decide, C6_topn_aggregation sampleTable 1 "score" true (by decide)⟩

/-- Tagging each block with its key and concatenating, in either order of the two
map steps, gives the same combined table: the shape of `by_sample`'s
`concat`-of-dictionary equals the direct concatenation of tagged per-sample runs. -/
theorem tagged_concat_eq {R : Type} (g : String → List R) (cats : List String) :
    ((cats.map (fun s => (s, g s))).flatMap (fun p => p.2.map (fun r => (p.1, r)))) =
      cats.flatMap (fun s => (g s).map (fun r => (s, r))) := by
  induction cats with
  | nil => rfl
  | cons c cs ih => simp only [List.map_cons, List.flatMap_cons, ih]

/-- Slicing a tagged concatenation at one tag recovers exactly that tag's block:
with pairwise-distinct tags, filtering the concatenation down to one tag and then
dropping the tag column yields the block of that tag. -/
theorem filter_flatMap_tag {R : Type} (g : String → List R) :
    ∀ cats : List String, cats.Nodup → ∀ s ∈ cats,
      (((cats.flatMap (fun c => (g c).map (fun b => (c, b)))).filter
          (fun p => decide (p.1 = s))).map Prod.snd) = g s := by
  intro cats
  induction cats with
  | nil =>
      intro _ s hs
      cases hs
  | cons c cs ih =>
      intro hnd s hs
      rw [List.flatMap_cons, List.filter_append, List.map_append]
      rcases List.mem_cons.mp hs with rfl | hs2
      · have hblock : ((g s).map (fun b => (s, b))).filter (fun p => decide (p.1 = s)) =
            (g s).map (fun b => (s, b)) := by
          apply List.filter_eq_self.mpr
          intro p hp
          obtain ⟨b, _, rfl⟩ := List.mem_map.mp hp
          exact decide_eq_true rfl
        have hrest : (cs.flatMap (fun c2 => (g c2).map (fun b => (c2, b)))).filter
            (fun p => decide (p.1 = s)) = [] := by
          apply List.filter_eq_nil_iff.mpr
          intro p hp hdec
          obtain ⟨c2, hc2, hp2⟩ := List.mem_flatMap.mp hp
          obtain ⟨b, _, rfl⟩ := List.mem_map.mp hp2
          have hc2s : c2 = s := of_decide_eq_true hdec
          exact (List.nodup_cons.mp hnd).1 (hc2s ▸ hc2)
        rw [hblock, hrest]
        simp [List.map_map]
      · have hcs : c ≠ s := fun h => (List.nodup_cons.mp hnd).1 (h ▸ hs2)
        have hblock : ((g c).map (fun b => (c, b))).filter (fun p => decide (p.1 = s)) = [] := by
          apply List.filter_eq_nil_iff.mpr
          intro p hp hdec
          obtain ⟨b, _, rfl⟩ := List.mem_map.mp hp
          exact hcs (of_decide_eq_true hdec)
        rw [hblock]
        simp only [List.map_nil, List.nil_append]
        exact ih (List.nodup_cons.mp hnd).2 s hs2

/-- Closed form of a successful `by_sample` run: the warnings are empty, the slot
holds the per-sample dictionary (or, in place, the combined table), and the
combined table is the spec-side concatenation of the direct per-sample runs. -/
theorem by_sample_ok {Cell R : Type} (pipe : List (Cell × String) → List R)
    (adata : AnnData Cell R) (sample_key : String) (inplace : Bool)
    (hkey : sample_key ∈ adata.obsKeys) :
    by_sample pipe adata sample_key inplace =
      .ok ([],
        (if inplace then
          { effectiveAdata adata with
              uns := LianaSlot.table (specBySampleCombined pipe (effectiveAdata adata)) }
         else
          { effectiveAdata adata with
              uns := LianaSlot.dict ((effectiveAdata adata).categories.map (fun s =>
                (s, pipe ((effectiveAdata adata).obs.filter (fun c => decide (c.2 = s)))))) }),
        if inplace then none else some (specBySampleCombined pipe (effectiveAdata adata))) := by
  have hc : ∀ a : AnnData Cell R,
      ((a.categories.map (fun s => (s, pipe (a.obs.filter (fun c => decide (c.2 = s)))))).flatMap
        (fun p => p.2.map (fun r => (p.1, r)))) = specBySampleCombined pipe a := by
    intro a
    unfold specBySampleCombined
    exact tagged_concat_eq (fun s => pipe (a.obs.filter (fun c => decide (c.2 = s)))) a.categories
  cases inplace
  · simp only [by_sample, if_pos hkey, hc]
  · simp only [by_sample, if_pos hkey, hc]

/-- C1: for a categorical sample key, `by_sample` succeeds and returns exactly the
concatenation, in category-level order, of the direct per-sample method runs (the
spec-side `specBySampleCombined`, with no deduplication across samples), and each
per-sample slice of the combined table — the rows carrying that sample tag, with
the tag column dropped — is row-identical to the method run directly on the
manually sliced single-sample subset with all other parameters unchanged. -/
theorem C1_by_sample_refinement {Cell R : Type} (pipe : List (Cell × String) → List R)
    (adata : AnnData Cell R) (sample_key : String)
    (hkey : sample_key ∈ adata.obsKeys) (hcat : adata.sampleCategorical = true)
    (hnd : adata.categories.Nodup) :
    (∃ a2, by_sample pipe adata sample_key false =
        .ok ([], a2, some (specBySampleCombined pipe adata))) ∧
    ∀ s ∈ adata.categories,
      (((specBySampleCombined pipe adata).filter (fun p => decide (p.1 = s))).map
        Prod.snd) = pipe (adata.obs.filter (fun c => decide (c.2 = s))) := by
  have heff : effectiveAdata adata = adata := by
    unfold effectiveAdata
    rw [hcat]
    simp
  constructor
  · refine ⟨{ adata with uns := LianaSlot.dict (adata.categories.map (fun s =>
      (s, pipe (adata.obs.filter (fun c => decide (c.2 = s)))))) }, ?_⟩
    rw [by_sample_ok pipe adata sample_key false hkey, heff]
    rfl
  · intro s hs
    unfold specBySampleCombined
    exact filter_flatMap_tag
      (fun c => pipe (adata.obs.filter (fun x => decide (x.2 = c))))
      adata.categories hnd s hs

/-- C10: with `inplace=False` the input object is still mutated — after the call
returns the combined table, the `liana_res` slot holds the intermediate dictionary
mapping each sample name, in category order, to its per-sample result table,
whatever value `slot0` the slot held before. -/
theorem C10_inplace_false_mutates {Cell R : Type} (pipe : List (Cell × String) → List R)
    (adata : AnnData Cell R) (slot0 : LianaSlot R) (sample_key : String)
    (hkey : sample_key ∈ adata.obsKeys) :
    ∃ w res, by_sample pipe { adata with uns := slot0 } sample_key false =
      .ok (w,
        { effectiveAdata adata with
            uns := LianaSlot.dict ((effCategories adata).map (fun s =>
              (s, pipe (adata.obs.filter (fun c => decide (c.2 = s)))))) },
        some res) ∧
      res = specBySampleCombined pipe (effectiveAdata adata) := by
  refine ⟨[], specBySampleCombined pipe (effectiveAdata adata), ?_, rfl⟩
  rw [by_sample_ok pipe { adata with uns := slot0 } sample_key false hkey]
  by_cases h : adata.sampleCategorical <;>
    simp [effectiveAdata, effCategories, specBySampleCombined, coercedCategories, h]

/-- A concrete three-cell object with a categorical sample column, and the concrete
method run used to instantiate the orchestration theorems. -/
def adataW : AnnData ℕ ℕ :=
  { obsKeys := ["sample"], obs := [(10, "s1"), (11, "s2"), (12, "s1")],
    sampleCategorical := true, categories := ["s1", "s2"], uns := LianaSlot.absent }

/-- The concrete per-subset method run for the witnesses: return the cell payloads. -/
def pipeW : List (ℕ × String) → List ℕ := fun obs => obs.map Prod.fst

/-- Instantiation of the `by_sample` refinement theorem at a concrete categorical
object. -/
theorem C1_by_sample_refinement_witness :
    ("sample" ∈ adataW.obsKeys ∧ adataW.sampleCategorical = true ∧
      adataW.categories.Nodup) ∧
    ((∃ a2, by_sample pipeW adataW "sample" false =
        .ok ([], a2, some (specBySampleCombined pipeW adataW))) ∧
     ∀ s ∈ adataW.categories,
       (((specBySampleCombined pipeW adataW).filter (fun p => decide (p.1 = s))).map
         Prod.snd) = pipeW (adataW.obs.filter (fun c => decide (c.2 = s)))) :=
  ⟨⟨by decide, rfl, by decide⟩,
   C1_by_sample_refinement pipeW adataW "sample" (by decide) rfl (by decide)⟩

/-- Instantiation of the inplace-false mutation theorem: the slot previously held a
combined table, and after the call it holds the per-sample dictionary. -/
theorem C10_inplace_false_mutates_witness :
    ("sample" ∈ adataW.obsKeys) ∧
    ∃ w res, by_sample pipeW { adataW with uns := LianaSlot.table [("old", 99)] }
        "sample" false =
      .ok (w,
        { effectiveAdata adataW with
            uns := LianaSlot.dict ((effCategories adataW).map (fun s =>
              (s, pipeW (adataW.obs.filter (fun c => decide (c.2 = s)))))) },
        some res) ∧
      res = specBySampleCombined pipeW (effectiveAdata adataW) :=
  ⟨by decide,
   C10_inplace_false_mutates pipeW adataW (LianaSlot.table [("old", 99)]) "sample" (by decide)⟩

/-- C8: the inverse transform maps every value elementwise to
`-log10(v + machine_epsilon)`; `inverse(1.0)` is within `1/1000` of `0`;
`inverse(0.0)` is a finite positive value below `52` (no infinity arises for input
exactly `0`, because the epsilon guard keeps the logarithm's argument positive);
and the transform is strictly decreasing on `(0, 1]`. -/
theorem C8_inverse_transform :
    (∀ l : List ℝ, _inverse_scores l = l.map (fun v => -Real.logb 10 (v + machEps))) ∧
    |invScore 1| < 1 / 1000 ∧
    (0 < invScore 0 ∧ invScore 0 < 52) ∧
    StrictAntiOn invScore (Set.Ioc 0 1) := by
  have heps_pos : (0 : ℝ) < machEps := by
    unfold machEps
    positivity
  have heps_lt : machEps < 1 / 1000 := by
    unfold machEps
    norm_num
  have hb : (1 : ℝ) < 10 := by norm_num
  refine ⟨fun l => rfl, ?_, ⟨?_, ?_⟩, ?_⟩
  · have hlogb_pos : 0 < Real.logb 10 (1 + machEps) :=
      Real.logb_pos hb (by linarith)
    have hlog10_gt1 : 1 < Real.log 10 := by
      rw [Real.lt_log_iff_exp_lt (by norm_num : (0 : ℝ) < 10)]
      have := Real.exp_one_lt_d9
      linarith
    have hlog_le : Real.log (1 + machEps) ≤ machEps := by
      have := Real.log_le_sub_one_of_pos (x := 1 + machEps) (by linarith)
      linarith
    have hlogb_lt : Real.logb 10 (1 + machEps) < 1 / 1000 := by
      unfold Real.logb
      have h1 : Real.log (1 + machEps) / Real.log 10 < Real.log (1 + machEps) :=
        div_lt_self (Real.log_pos (by linarith)) hlog10_gt1
      linarith
    have hval : invScore 1 = -Real.logb 10 (1 + machEps) := rfl
    rw [hval, abs_neg, abs_of_pos hlogb_pos]
    exact hlogb_lt
  · have hval : invScore 0 = 52 * Real.logb 10 2 := by
      unfold invScore machEps
      rw [zero_add, one_div, Real.logb_inv, neg_neg, Real.logb_pow]
      norm_num
    rw [hval]
    have : 0 < Real.logb 10 2 := Real.logb_pos hb (by norm_num)
    linarith
  · have hval : invScore 0 = 52 * Real.logb 10 2 := by
      unfold invScore machEps
      rw [zero_add, one_div, Real.logb_inv, neg_neg, Real.logb_pow]
      norm_num
    rw [hval]
    have hlt1 : Real.logb 10 2 < 1 := by
      rw [Real.logb_lt_iff_lt_rpow hb (by norm_num : (0 : ℝ) < 2)]
      rw [Real.rpow_one]
      norm_num
    linarith
  · intro x hx y hy hxy
    have h1 : (0 : ℝ) < x + machEps := by
      have := hx.1
      linarith
    apply neg_lt_neg
    exact Real.logb_lt_logb hb h1 (by linarith)

/-- Instantiation of the inverse-transform theorem: the transform strictly
decreases from `1/2` to `1` inside `(0, 1]`. -/
theorem C8_inverse_transform_witness :
    ((1 : ℝ) / 2 ∈ Set.Ioc (0 : ℝ) 1) ∧ ((1 : ℝ) ∈ Set.Ioc (0 : ℝ) 1) ∧
    invScore 1 < invScore (1 / 2) :=
  ⟨⟨by norm_num, by norm_num⟩, ⟨by norm_num, by norm_num⟩,
   C8_inverse_transform.2.2.2 ⟨by norm_num, by norm_num⟩ ⟨by norm_num, by norm_num⟩
     (by norm_num)⟩
